import Mathlib

/-!
Verification of the conflict-detection engine of `git-check-conflicts`
(src/lib.ts and src/main.ts) against its specification.

The engine shells out to `git` for every piece of repository state, so the
embedding abstracts the external world as an oracle `GitEnv` mapping one
command invocation (argv plus the optional `GIT_INDEX_FILE` binding used by
`TempIndex.runGitWithIndex`) to the `CmdResult` that `runCmd` would produce
(`runCmd` trims stdout/stderr, so the oracle's outputs are the trimmed
strings), or to an error when the invocation itself rejects.  Each async
library function becomes a function in a small state monad `M` that threads
the list of commands issued so far (the trace lets temporal claims such as
"the fallback strategy is never consulted" be stated directly) and propagates
thrown errors, mirroring Promise rejection.  All string processing (line
splitting, whitespace splitting, trimming, the regular expressions of
lib.ts) is re-implemented over `List Char` with structural recursion so that
every definition evaluates inside the kernel.
-/

namespace GitCheckConflicts

/-- Exit code and captured (trimmed) output of one external command, the
`CmdResult` type of src/lib.ts. -/
structure CmdResult where
  code : Int
  stdout : String
  stderr : String
  deriving Repr, DecidableEq

/-- A thrown JavaScript error: either a `GitError` (message plus numeric
code, default 2) or any other `Error`. -/
inductive MErr where
  | gitError (message : String) (code : Int)
  | jsError (message : String)
  deriving Repr, DecidableEq

/-- One external invocation: the argv passed to `runCmd` and the value bound
to `GIT_INDEX_FILE` when the call goes through `TempIndex.runGitWithIndex`. -/
structure Cmd where
  argv : List String
  gitIndexFile : Option String
  deriving Repr, DecidableEq

/-- The external world: what each command invocation returns (or the error
its Promise rejects with). -/
def GitEnv := Cmd → Except MErr CmdResult

/-- Computation of the engine: threads the trace of commands issued so far
and propagates thrown errors (together with the trace at the throw). -/
def M (α : Type) := List Cmd → Except (MErr × List Cmd) (α × List Cmd)

def mret {α : Type} (a : α) : M α := fun t => .ok (a, t)

def mbind {α β : Type} (x : M α) (f : α → M β) : M β := fun t =>
  match x t with
  | .error e => .error e
  | .ok (a, t2) => f a t2

def mthrow {α : Type} (e : MErr) : M α := fun t => .error (e, t)

/-- `x.catch(h)` of JavaScript: a rejected computation is replaced by the
handler's result. -/
def mtry {α : Type} (x : M α) (h : MErr → M α) : M α := fun t =>
  match x t with
  | .error (e, t2) => h e t2
  | .ok r => .ok r

/-- `runCmd` of src/lib.ts, acting on the oracle: issues the command,
records it in the trace, and returns the oracle's answer (re-raising when
the invocation rejects). -/
def runCmdM (env : GitEnv) (argv : List String) (idx : Option String) : M CmdResult := fun t =>
  match env ⟨argv, idx⟩ with
  | .error e => .error (e, t ++ [⟨argv, idx⟩])
  | .ok r => .ok (r, t ++ [⟨argv, idx⟩])

/-- The trace a finished run leaves behind, whether it returned or threw. -/
def traceOut {α : Type} : Except (MErr × List Cmd) (α × List Cmd) → List Cmd
  | .error (_, tr) => tr
  | .ok (_, tr) => tr

instance {ε α : Type} [DecidableEq ε] [DecidableEq α] : DecidableEq (Except ε α) := fun a b =>
  match a, b with
  | .error e, .error f =>
    if h : e = f then isTrue (congrArg Except.error h)
    else isFalse fun hc => h (Except.error.inj hc)
  | .error _, .ok _ => isFalse fun hc => Except.noConfusion hc
  | .ok _, .error _ => isFalse fun hc => Except.noConfusion hc
  | .ok x, .ok y =>
    if h : x = y then isTrue (congrArg Except.ok h)
    else isFalse fun hc => h (Except.ok.inj hc)

/-! ### JavaScript string primitives over `List Char` -/

/-- The characters JavaScript's `\s` class matches (ASCII part plus NBSP,
the line/paragraph separators and the BOM; the rarer Unicode space
characters do not occur in git output). -/
def isJsWS (c : Char) : Bool :=
  c = ' ' || c = '\t' || c = '\n' || c = '\r' || c = '\u000B' || c = '\u000C' ||
  c = '\u00A0' || c = '\u2028' || c = '\u2029' || c = '\uFEFF'

/-- Split at every occurrence of `sep`; like JavaScript `split` the result
always has one more piece than there are separators. -/
def splitOnChar (sep : Char) : List Char → List (List Char)
  | [] => [[]]
  | c :: cs =>
    if c = sep then [] :: splitOnChar sep cs
    else
      match splitOnChar sep cs with
      | [] => [[c]]
      | h :: t => (c :: h) :: t

/-- Drop one trailing carriage return, if present. -/
def dropLastCR (l : List Char) : List Char :=
  match l.getLast? with
  | some c => if c = '\r' then l.dropLast else l
  | none => l

/-- Strip the carriage return that `\r?\n` consumed from every piece except
the last (the last piece was not followed by a newline). -/
def stripSepCR : List (List Char) → List (List Char)
  | [] => []
  | [l] => [l]
  | l :: ls => dropLastCR l :: stripSepCR ls

/-- JavaScript `s.split(/\r?\n/)`. -/
def jsLines (s : String) : List String :=
  (stripSepCR (splitOnChar '\n' s.data)).map String.mk

/-- JavaScript `s.split('\n')` (used for the rename listings, which split on
the bare newline character). -/
def rawLines (s : String) : List String :=
  (splitOnChar '\n' s.data).map String.mk

/-- Does `pat` occur as a contiguous subsequence (an unanchored regex
match such as `/<<<<<<< /` testing true)? -/
def containsSeq (pat : List Char) : List Char → Bool
  | [] => decide (pat = [])
  | c :: cs => pat.isPrefixOf (c :: cs) || containsSeq pat cs

/-- Worker for `jsSplitWS`: `acc` holds the current token reversed, `inRun`
records whether we are inside a whitespace run (whose token was already
emitted). -/
def splitWSGo : List Char → List Char → Bool → List (List Char)
  | [], acc, _ => [acc.reverse]
  | c :: cs, acc, inRun =>
    if isJsWS c then
      if inRun then splitWSGo cs [] true
      else acc.reverse :: splitWSGo cs [] true
    else splitWSGo cs (c :: acc) false

/-- JavaScript `s.split(/\s+/)`: splits at maximal whitespace runs, with an
empty leading (trailing) piece when the string starts (ends) with
whitespace, and `[""]` for the empty string. -/
def jsSplitWS (l : List Char) : List (List Char) := splitWSGo l [] false

/-- JavaScript `line.split(/\s+/).slice(-1)[0]`: the last
whitespace-delimited field of a line. -/
def lastField (line : String) : String :=
  String.mk (((jsSplitWS line.data).getLast?).getD [])

/-- JavaScript `s.trim()` (the whitespace classes of `isJsWS`). -/
def jsTrim (s : String) : String :=
  String.mk (((s.data.dropWhile isJsWS).reverse.dropWhile isJsWS).reverse)

/-- Worker for `jsSetDedup`: `seen` holds the values already emitted.  This
is exactly how iterating a JavaScript `Set` built with
`Array.from(new Set(l))` behaves: insertion order, first occurrence kept. -/
def jsSetDedupGo (seen : List String) : List String → List String
  | [] => []
  | x :: xs => if x ∈ seen then jsSetDedupGo seen xs else x :: jsSetDedupGo (x :: seen) xs

/-- `Array.from(new Set(l))` of JavaScript. -/
def jsSetDedup (l : List String) : List String := jsSetDedupGo [] l

/-- Reference form of first-occurrence deduplication: keep an element iff
it did not occur earlier in the list. -/
def keepFirsts : List String → List String
  | [] => []
  | x :: xs => x :: keepFirsts (xs.filter fun y => y != x)
termination_by l => l.length
decreasing_by
  simp only [List.length_cons]
  exact Nat.lt_succ_of_le (List.length_filter_le _ _)

/-! ### parseUnmergedFiles (src/lib.ts lines 119-129) -/

/-- `parseUnmergedFiles` of src/lib.ts: split the `ls-files -u --stage`
output into lines, drop empty lines, keep the last whitespace-delimited
field of each line, and deduplicate preserving insertion order. -/
def parseUnmergedFiles (lsOutput : String) : List String :=
  if lsOutput = "" then []
  else jsSetDedup (((jsLines lsOutput).filter fun l => l != "").map lastField)

/-! ### Lemmas about first-occurrence deduplication -/

theorem keepFirsts_nil : keepFirsts [] = [] := by
  rw [keepFirsts.eq_def]

theorem keepFirsts_cons (x : String) (xs : List String) :
    keepFirsts (x :: xs) = x :: keepFirsts (xs.filter fun y => y != x) := by
  rw [keepFirsts.eq_def]

theorem jsSetDedupGo_eq_keepFirsts (l : List String) : ∀ seen : List String,
    jsSetDedupGo seen l = keepFirsts (l.filter fun y => decide (y ∉ seen)) := by
  induction l with
  | nil => intro seen; simp [jsSetDedupGo, keepFirsts_nil]
  | cons x xs ih =>
    intro seen
    by_cases hx : x ∈ seen
    · rw [jsSetDedupGo, if_pos hx, List.filter_cons]
      simp only [hx, not_true_eq_false, decide_False]
      exact ih seen
    · rw [jsSetDedupGo, if_neg hx, List.filter_cons]
      simp only [hx, not_false_eq_true, decide_True, ite_true]
      rw [keepFirsts_cons, ih (x :: seen), List.filter_filter]
      congr 1
      refine congr_arg keepFirsts ?_
      apply List.filter_congr
      intro a _
      by_cases hax : a = x
      · subst hax; simp
      · simp [hax, bne_iff_ne, Ne, And.comm]

theorem jsSetDedup_eq_keepFirsts (l : List String) : jsSetDedup l = keepFirsts l := by
  rw [jsSetDedup, jsSetDedupGo_eq_keepFirsts]
  congr 1
  simp

theorem mem_keepFirsts {a : String} : ∀ {l : List String}, a ∈ keepFirsts l ↔ a ∈ l := by
  intro l
  induction l using keepFirsts.induct with
  | case1 => simp [keepFirsts_nil]
  | case2 x xs ih =>
    rw [keepFirsts_cons]
    constructor
    · intro h
      rcases List.mem_cons.mp h with h | h
      · simp [h]
      · have := List.mem_filter.mp (ih.mp h)
        simp [this.1]
    · intro h
      rcases List.mem_cons.mp h with h | h
      · simp [h]
      · by_cases hax : a = x
        · simp [hax]
        · exact List.mem_cons.mpr (Or.inr (ih.mpr (List.mem_filter.mpr
            ⟨h, by simp [bne_iff_ne, hax]⟩)))

theorem keepFirsts_nodup : ∀ l : List String, (keepFirsts l).Nodup := by
  intro l
  induction l using keepFirsts.induct with
  | case1 => simp [keepFirsts_nil]
  | case2 x xs ih =>
    rw [keepFirsts_cons]
    refine List.nodup_cons.mpr ⟨fun hx => ?_, ih⟩
    have := List.mem_filter.mp (mem_keepFirsts.mp hx)
    simp [bne_iff_ne] at this

/-- C5: for every `ls-files -u --stage` listing, `parseUnmergedFiles`
returns each path at most once (a path listed once per merge stage appears
a single time), and the returned list is exactly the first-occurrence
deduplication of the per-line extracted paths, so it preserves the order in
which each path first occurs in the listing. -/
theorem parseUnmergedFiles_orderedDedup (out : String) :
    parseUnmergedFiles out
        = keepFirsts (((jsLines out).filter fun l => l != "").map lastField)
    ∧ (parseUnmergedFiles out).Nodup
    ∧ ∀ p ∈ ((jsLines out).filter fun l => l != "").map lastField,
        (parseUnmergedFiles out).count p = 1 := by
  have hrep : parseUnmergedFiles out
      = keepFirsts (((jsLines out).filter fun l => l != "").map lastField) := by
    by_cases h : out = ""
    · subst h
      simp [parseUnmergedFiles, jsLines, splitOnChar, stripSepCR, keepFirsts_nil]
    · rw [parseUnmergedFiles, if_neg h, jsSetDedup_eq_keepFirsts]
  refine ⟨hrep, ?_, ?_⟩
  · rw [hrep]; exact keepFirsts_nodup _
  · intro p hp
    have hmem : p ∈ parseUnmergedFiles out := by
      rw [hrep]; exact mem_keepFirsts.mpr hp
    have hnd : (parseUnmergedFiles out).Nodup := by
      rw [hrep]; exact keepFirsts_nodup _
    exact List.count_eq_one_of_mem hnd hmem

theorem parseUnmergedFiles_orderedDedup_witness :
    ("file.txt" ∈ ((jsLines "100644 a1 1\tfile.txt\n100644 b2 2\tfile.txt\n100644 c3 1\tother.txt").filter fun l => l != "").map lastField)
    ∧ (parseUnmergedFiles "100644 a1 1\tfile.txt\n100644 b2 2\tfile.txt\n100644 c3 1\tother.txt").count "file.txt" = 1
    ∧ parseUnmergedFiles "100644 a1 1\tfile.txt\n100644 b2 2\tfile.txt\n100644 c3 1\tother.txt" = ["file.txt", "other.txt"] :=
  ⟨by decide,
   (parseUnmergedFiles_orderedDedup "100644 a1 1\tfile.txt\n100644 b2 2\tfile.txt\n100644 c3 1\tother.txt").2.2
     "file.txt" (by decide),
   by decide⟩

/-- C9: every path recorded by `parseUnmergedFiles` is the last
whitespace-delimited field of some non-empty line of the listing, so an
unmerged path containing internal whitespace is recorded only by its final
token, never by the full path. -/
theorem parseUnmergedFiles_lastFieldOnly (out p : String)
    (hp : p ∈ parseUnmergedFiles out) :
    (((jsLines out).filter fun l => l != "").any fun l => p == lastField l) = true := by
  rw [parseUnmergedFiles] at hp
  by_cases h : out = ""
  · rw [if_pos h] at hp; cases hp
  · rw [if_neg h, jsSetDedup_eq_keepFirsts] at hp
    have hp2 := mem_keepFirsts.mp hp
    rcases List.mem_map.mp hp2 with ⟨l, hl, hpl⟩
    exact List.any_eq_true.mpr ⟨l, hl, by simp [hpl]⟩

theorem parseUnmergedFiles_lastFieldOnly_witness :
    parseUnmergedFiles "100644 abc123 1\tmy file.txt" = ["file.txt"]
    ∧ (((jsLines "100644 abc123 1\tmy file.txt").filter fun l => l != "").any
        fun l => "file.txt" == lastField l) = true :=
  ⟨by decide,
   parseUnmergedFiles_lastFieldOnly "100644 abc123 1\tmy file.txt" "file.txt" (by decide)⟩

/-! ### checkConflictsWithMergeTree (src/lib.ts lines 437-463) -/

/-- The line terminators after which a multiline-`^` of JavaScript matches. -/
def lineTerm (c : Char) : Bool :=
  c = '\n' || c = '\r' || c = '\u2028' || c = '\u2029'

/-- JavaScript `/^(p1|p2|...)/m.test(s)`: does some pattern match at the
start of the string or right after a line terminator?  `atStart` records
whether the current position is such a start-of-line position. -/
def mlAnyStart (pats : List (List Char)) : Bool → List Char → Bool
  | atStart, [] => atStart && pats.any (·.isPrefixOf ([] : List Char))
  | atStart, c :: cs =>
    (atStart && pats.any (·.isPrefixOf (c :: cs))) || mlAnyStart pats (lineTerm c) cs

/-- The structural-conflict line heads of the fallback regex:
`removed in (local|remote)`, `added in (local|remote)`, `changed in both`. -/
def structuralPats : List (List Char) :=
  ["removed in local".data, "removed in remote".data,
   "added in local".data, "added in remote".data, "changed in both".data]

/-- The inline content-conflict marker `/<<<<<<< /` looks for. -/
def contentMarker : List Char := "<<<<<<< ".data

/-- The argv of the fallback `git merge-tree` invocation
(`mergeBase || emptyTree` picks the empty tree when `mergeBase` is
the empty string). -/
def mergeTreeArgs (mergeBase ours theirs emptyTree : String) : List String :=
  ["git", "merge-tree", if mergeBase = "" then emptyTree else mergeBase, ours, theirs]

/-- `checkConflictsWithMergeTree` of src/lib.ts: run `git merge-tree` and
report a conflict when the report contains the inline marker anywhere, or
when a line starts with one of the structural-conflict heads. -/
def checkConflictsWithMergeTree (env : GitEnv)
    (mergeBase ours theirs emptyTree : String) : M Bool :=
  mbind (runCmdM env (mergeTreeArgs mergeBase ours theirs emptyTree) none) fun r =>
  if containsSeq contentMarker r.stdout.data then mret true
  else if mlAnyStart structuralPats true r.stdout.data then mret true
  else mret false

theorem splitOnChar_ne_nil (sep : Char) (s : List Char) : splitOnChar sep s ≠ [] := by
  cases s with
  | nil => simp [splitOnChar]
  | cons c cs =>
    rw [splitOnChar]
    by_cases h : c = sep
    · simp [h]
    · rw [if_neg h]
      cases hr : splitOnChar sep cs <;> simp

theorem splitOnChar_headD_isPre (sep : Char) :
    ∀ s : List Char, (splitOnChar sep s).headD [] <+: s := by
  intro s
  induction s with
  | nil => simp [splitOnChar]
  | cons c cs ih =>
    rw [splitOnChar]
    by_cases h : c = sep
    · simp [h]
    · rw [if_neg h]
      cases hr : splitOnChar sep cs with
      | nil => exact absurd hr (splitOnChar_ne_nil sep cs)
      | cons h0 t0 =>
        rw [hr] at ih
        simp only [List.headD_cons] at ih ⊢
        rcases ih with ⟨tl, htl⟩
        exact ⟨tl, by rw [List.cons_append, htl]⟩

theorem mlAnyStart_head (pats : List (List Char)) (s : List Char)
    (h : pats.any (·.isPrefixOf ((splitOnChar '\n' s).headD [])) = true) :
    mlAnyStart pats true s = true := by
  cases s with
  | nil =>
    simp only [splitOnChar, List.headD] at h
    simp [mlAnyStart, h]
  | cons c cs =>
    rw [mlAnyStart]
    rcases List.any_eq_true.mp h with ⟨p, hp, hpre⟩
    have hpcs : p.isPrefixOf (c :: cs) = true := by
      rw [List.isPrefixOf_iff_prefix] at hpre ⊢
      exact hpre.trans (splitOnChar_headD_isPre '\n' (c :: cs))
    have : pats.any (·.isPrefixOf (c :: cs)) = true := List.any_eq_true.mpr ⟨p, hp, hpcs⟩
    simp [this]

theorem mlAnyStart_tail (pats : List (List Char)) :
    ∀ (s : List Char) (b : Bool),
      (∃ l ∈ (splitOnChar '\n' s).tail, pats.any (·.isPrefixOf l) = true) →
      mlAnyStart pats b s = true := by
  intro s
  induction s with
  | nil => rintro b ⟨l, hl, _⟩; simp [splitOnChar] at hl
  | cons c cs ih =>
    rintro b ⟨l, hl, hpl⟩
    rw [splitOnChar] at hl
    by_cases h : c = '\n'
    · rw [if_pos h, List.tail_cons] at hl
      rw [mlAnyStart]
      have hterm : lineTerm c = true := by simp [lineTerm, h]
      cases hsp : splitOnChar '\n' cs with
      | nil => exact absurd hsp (splitOnChar_ne_nil '\n' cs)
      | cons h0 t0 =>
        rw [hsp] at hl
        rcases List.mem_cons.mp hl with rfl | hl
        · have := mlAnyStart_head pats cs (by rw [hsp]; simpa using hpl)
          simp [hterm, this]
        · have := ih (lineTerm c) ⟨l, by rw [hsp]; exact hl, hpl⟩
          simp [this]
    · rw [if_neg h] at hl
      cases hsp : splitOnChar '\n' cs with
      | nil => exact absurd hsp (splitOnChar_ne_nil '\n' cs)
      | cons h0 t0 =>
        rw [hsp, List.tail_cons] at hl
        rw [mlAnyStart]
        have := ih (lineTerm c) ⟨l, by rw [hsp]; exact hl, hpl⟩
        simp [this]

theorem mlAnyStart_of_line (pats : List (List Char)) (s : List Char)
    (h : ∃ l ∈ splitOnChar '\n' s, pats.any (·.isPrefixOf l) = true) :
    mlAnyStart pats true s = true := by
  rcases h with ⟨l, hl, hpl⟩
  cases hsp : splitOnChar '\n' s with
  | nil => exact absurd hsp (splitOnChar_ne_nil '\n' s)
  | cons h0 t0 =>
    rw [hsp] at hl
    rcases List.mem_cons.mp hl with rfl | hl
    · exact mlAnyStart_head pats s (by rw [hsp]; simpa using hpl)
    · exact mlAnyStart_tail pats s true ⟨l, by rw [hsp]; exact hl, hpl⟩

/-- C1: whenever the merge-tree report contains a line beginning with one of
`removed in local`, `removed in remote`, `added in local`, `added in remote`,
`changed in both` — even with no inline `<<<<<<< ` marker anywhere —
`checkConflictsWithMergeTree` returns `true`: the structural trigger alone
sets the conflict flag. -/
theorem checkConflictsWithMergeTree_structuralTrigger (env : GitEnv)
    (mergeBase ours theirs emptyTree : String) (t0 : List Cmd) (r : CmdResult)
    (henv : env ⟨mergeTreeArgs mergeBase ours theirs emptyTree, none⟩ = .ok r)
    (hline : ∃ l ∈ splitOnChar '\n' r.stdout.data,
        structuralPats.any (·.isPrefixOf l) = true)
    (hnomark : containsSeq contentMarker r.stdout.data = false) :
    checkConflictsWithMergeTree env mergeBase ours theirs emptyTree t0
      = .ok (true, t0 ++ [⟨mergeTreeArgs mergeBase ours theirs emptyTree, none⟩]) := by
  have hstruct := mlAnyStart_of_line structuralPats r.stdout.data hline
  rw [checkConflictsWithMergeTree, mbind, runCmdM, henv]
  simp [hnomark, hstruct, mret]

theorem checkConflictsWithMergeTree_structuralTrigger_witness :
    checkConflictsWithMergeTree
      (fun c =>
        if c = ⟨mergeTreeArgs "base0" "ours0" "theirs0" "empty0", none⟩ then
          .ok ⟨0, "removed in remote\n  base   100644 1111111111111111111111111111111111111111 f.txt\n  our    100644 2222222222222222222222222222222222222222 f.txt", ""⟩
        else .ok ⟨0, "", ""⟩)
      "base0" "ours0" "theirs0" "empty0" []
      = .ok (true, [⟨mergeTreeArgs "base0" "ours0" "theirs0" "empty0", none⟩]) :=
  checkConflictsWithMergeTree_structuralTrigger _ "base0" "ours0" "theirs0" "empty0" []
    ⟨0, "removed in remote\n  base   100644 1111111111111111111111111111111111111111 f.txt\n  our    100644 2222222222222222222222222222222222222222 f.txt", ""⟩
    (by simp) (by decide) (by decide)

/-! ### revToTree, getEmptyTreeHash (src/lib.ts lines 112-117, 406-414) -/

/-- `revToTree` of src/lib.ts: the empty revision maps to the supplied
empty-tree id; otherwise `rev^{tree}` is resolved, falling back to the
empty-tree id when that fails. -/
def revToTree (env : GitEnv) (rev emptyTree : String) : M String :=
  if rev = "" then mret emptyTree
  else
    mbind (runCmdM env ["git", "rev-parse", rev ++ "^\x7btree\x7d"] none) fun r =>
    if r.code = 0 ∧ r.stdout ≠ "" then mret r.stdout else mret emptyTree

/-- The well-known empty-tree id hard-coded as fallback in src/lib.ts. -/
def emptyTreeFallback : String := "4b825dc642cb6eb9a060e54bf8d69288fbee4904"

/-- `getEmptyTreeHash` of src/lib.ts: ask git for the empty tree's id, with
the well-known hash as fallback. -/
def getEmptyTreeHash (env : GitEnv) : M String :=
  mbind (runCmdM env ["git", "hash-object", "-t", "tree", "/dev/null"] none) fun r =>
  if r.code = 0 ∧ r.stdout ≠ "" then mret r.stdout else mret emptyTreeFallback

/-! ### TempIndex (src/lib.ts lines 375-404) -/

/-- `TempIndex.runGitWithIndex`: throws when no temporary index was created,
otherwise runs git with `GIT_INDEX_FILE` bound to the index path. -/
def runGitWithIndex (env : GitEnv) (path : Option String) (args : List String) : M CmdResult :=
  match path with
  | none => mthrow (.jsError "Temporary index not created")
  | some p => runCmdM env ("git" :: args) (some p)

/-- `TempIndex.create`, acting on a file-system state listing the files that
exist: `Deno.makeTempFile()` allocates a fresh file and the path is stored. -/
def tempIndexCreate (tmpName : String) (fs : List String) : Option String × List String :=
  (some tmpName, fs ++ [tmpName])

/-- `TempIndex.cleanup`: when a path is stored, try to remove the backing
file (`rm` is the `Deno.remove` oracle); on success forget the path, on
failure swallow the error (the stored path stays, as `this.path = null`
is skipped when `Deno.remove` throws).  The `Except` result shows the
function can never propagate an error. -/
def tempIndexCleanup (rm : String → List String → Except Unit (List String))
    (path : Option String) (fs : List String) : Except MErr (Option String × List String) :=
  match path with
  | none => .ok (none, fs)
  | some p =>
    match rm p fs with
    | .ok fs2 => .ok (none, fs2)
    | .error _ => .ok (some p, fs)

/-- C8: `TempIndex.cleanup` is total and idempotent: after a successful
`create`, a cleanup whose removal succeeds deletes the backing file and
forgets the path, making every later cleanup a no-op; for every state the
function returns normally (never raises), and re-running it on its own
output state changes nothing — in particular a failed removal is swallowed
and leaves the state unchanged. -/
theorem tempIndexCleanup_spec (rm : String → List String → Except Unit (List String))
    (fs : List String) (tmp : String)
    (hrm : rm tmp (fs ++ [tmp]) = .ok ((fs ++ [tmp]).erase tmp)) :
    tempIndexCleanup rm (tempIndexCreate tmp fs).1 (tempIndexCreate tmp fs).2
        = .ok (none, (fs ++ [tmp]).erase tmp)
    ∧ (∀ q gs, ∃ st, tempIndexCleanup rm q gs = .ok st)
    ∧ (∀ q gs st, tempIndexCleanup rm q gs = .ok st →
        tempIndexCleanup rm st.1 st.2 = .ok st) := by
  refine ⟨by simp [tempIndexCreate, tempIndexCleanup, hrm], ?_, ?_⟩
  · intro q gs
    cases q with
    | none => exact ⟨(none, gs), rfl⟩
    | some p =>
      rw [tempIndexCleanup]
      cases hr : rm p gs with
      | ok fs2 => exact ⟨(none, fs2), rfl⟩
      | error e => exact ⟨(some p, gs), rfl⟩
  · intro q gs st hst
    cases q with
    | none =>
      rw [tempIndexCleanup] at hst
      cases hst
      rfl
    | some p =>
      rw [tempIndexCleanup] at hst
      cases hr : rm p gs with
      | ok fs2 =>
        rw [hr] at hst
        cases hst
        rfl
      | error e =>
        rw [hr] at hst
        cases hst
        rw [tempIndexCleanup, hr]

theorem tempIndexCleanup_spec_witness :
    tempIndexCleanup (fun q l => .ok (l.erase q)) (some "/tmp/scratch-index") ["/tmp/scratch-index"]
      = .ok (none, []) := by
  have h := (tempIndexCleanup_spec (fun q l => .ok (l.erase q)) [] "/tmp/scratch-index"
    rfl).1
  simpa [tempIndexCreate] using h

/-! ### checkConflictsWithReadTree (src/lib.ts lines 416-435) -/

/-- The `read-tree -m` invocation of the primary strategy against the
scratch index `idx`. -/
def readTreeCmd (baseTree oursTree theirsTree idx : String) : Cmd :=
  ⟨["git", "read-tree", "-m", "--", baseTree, oursTree, theirsTree], some idx⟩

/-- The `ls-files -u --stage` invocation listing unmerged entries of the
scratch index `idx`. -/
def lsFilesCmd (idx : String) : Cmd :=
  ⟨["git", "ls-files", "-u", "--stage"], some idx⟩

/-- `checkConflictsWithReadTree` of src/lib.ts: try the three-way
`read-tree` into the scratch index, swallowing any rejection
(`.catch(() => ({code: 1, ...}))`), then parse the unmerged entries the
scratch index lists. -/
def checkConflictsWithReadTree (env : GitEnv) (baseTree oursTree theirsTree : String)
    (tempIndexPath : Option String) : M (List String) :=
  mbind
    (mtry (runGitWithIndex env tempIndexPath ["read-tree", "-m", "--", baseTree, oursTree, theirsTree])
      (fun _ => mret ⟨1, "", ""⟩)) fun _ =>
  mbind (runGitWithIndex env tempIndexPath ["ls-files", "-u", "--stage"]) fun lsRes =>
  mret (parseUnmergedFiles lsRes.stdout)

/-- C6: when the `read-tree` merge step fails to run — its invocation
rejects or exits nonzero — `checkConflictsWithReadTree` does not raise: it
still returns the (possibly empty) list parsed from the scratch index's
unmerged entries, so a failed primary merge attempt reads as "zero
conflicts found" and `main` falls through to the fallback strategy instead
of aborting. -/
theorem checkConflictsWithReadTree_failedMerge (env : GitEnv)
    (baseTree oursTree theirsTree idx : String) (t0 : List Cmd) (rls : CmdResult)
    (hread : (∃ e, env (readTreeCmd baseTree oursTree theirsTree idx) = .error e)
      ∨ (∃ r, env (readTreeCmd baseTree oursTree theirsTree idx) = .ok r ∧ r.code ≠ 0))
    (hls : env (lsFilesCmd idx) = .ok rls) :
    checkConflictsWithReadTree env baseTree oursTree theirsTree (some idx) t0
      = .ok (parseUnmergedFiles rls.stdout,
          t0 ++ [readTreeCmd baseTree oursTree theirsTree idx, lsFilesCmd idx]) := by
  simp only [readTreeCmd] at hread
  simp only [lsFilesCmd] at hls
  rcases hread with ⟨e, he⟩ | ⟨r, hr, _⟩
  · simp [checkConflictsWithReadTree, mbind, mtry, runGitWithIndex, runCmdM, mret,
      he, hls, readTreeCmd, lsFilesCmd]
  · simp [checkConflictsWithReadTree, mbind, mtry, runGitWithIndex, runCmdM, mret,
      hr, hls, readTreeCmd, lsFilesCmd]

theorem checkConflictsWithReadTree_failedMerge_witness :
    checkConflictsWithReadTree
      (fun c => if c = readTreeCmd "b0" "o0" "t0" "/tmp/ix0" then .error (.jsError "spawn failed")
        else .ok ⟨0, "", ""⟩)
      "b0" "o0" "t0" (some "/tmp/ix0") []
      = .ok ([], [readTreeCmd "b0" "o0" "t0" "/tmp/ix0", lsFilesCmd "/tmp/ix0"]) :=
  checkConflictsWithReadTree_failedMerge _ "b0" "o0" "t0" "/tmp/ix0" [] ⟨0, "", ""⟩
    (Or.inl ⟨.jsError "spawn failed", by decide⟩) (by decide)

/-! ### resolveCommit (src/lib.ts lines 90-110) -/

/-- The `rev-parse --verify <ref>^(commit)` invocation of `resolveCommit`. -/
def verifyCmd (ref : String) : Cmd :=
  ⟨["git", "rev-parse", "--verify", ref ++ "^\x7bcommit\x7d"], none⟩

/-- The `git remote` invocation listing configured remotes. -/
def remoteListCmd : Cmd := ⟨["git", "remote"], none⟩

/-- The remote-candidate loop of `resolveCommit`: try `<remote>/<ref>` for
each configured remote in listing order; when none resolves, throw the
`GitError` of src/lib.ts line 109. -/
def tryRemoteCandidates (env : GitEnv) (ref : String) : List String → M (String × String)
  | [] => mthrow (.gitError ("Couldn't resolve '" ++ ref ++ "' to a commit") 2)
  | remote :: rest =>
    mbind (runCmdM env ["git", "rev-parse", "--verify", (remote ++ "/" ++ ref) ++ "^\x7bcommit\x7d"] none) fun s =>
    if s.code = 0 ∧ s.stdout ≠ "" then mret (s.stdout, remote ++ "/" ++ ref)
    else tryRemoteCandidates env ref rest

/-- `resolveCommit` of src/lib.ts: verify the ref as a commit directly
(returning `(commit, ref)` unchanged on success); otherwise list the
remotes and try each `<remote>/<ref>` candidate, returning the candidate
name as the resolved ref. -/
def resolveCommit (env : GitEnv) (ref : String) : M (String × String) :=
  mbind (runCmdM env ["git", "rev-parse", "--verify", ref ++ "^\x7bcommit\x7d"] none) fun r =>
  if r.code = 0 ∧ r.stdout ≠ "" then mret (r.stdout, ref)
  else
    mbind (runCmdM env ["git", "remote"] none) fun rem =>
    tryRemoteCandidates env ref ((jsLines rem.stdout).filter fun s => s != "")

theorem tryRemoteCandidates_ok (env : GitEnv) (ref : String) :
    ∀ (remotes : List String) (t0 : List Cmd) (out : String × String) (tr : List Cmd),
      tryRemoteCandidates env ref remotes t0 = .ok (out, tr) →
      ∃ remote ∈ remotes, out.2 = remote ++ "/" ++ ref ∧
        ∃ s : CmdResult, env (verifyCmd (remote ++ "/" ++ ref)) = .ok s ∧
          s.code = 0 ∧ s.stdout ≠ "" ∧ out.1 = s.stdout := by
  intro remotes
  induction remotes with
  | nil =>
    intro t0 out tr h
    simp only [tryRemoteCandidates, mthrow] at h
    exact Except.noConfusion h
  | cons remote rest ih =>
    intro t0 out tr h
    rw [tryRemoteCandidates] at h
    simp only [mbind, runCmdM] at h
    cases he : env ⟨["git", "rev-parse", "--verify", (remote ++ "/" ++ ref) ++ "^\x7bcommit\x7d"], none⟩ with
    | error e => rw [he] at h; simp at h
    | ok s =>
      rw [he] at h
      dsimp only at h
      by_cases hs : s.code = 0 ∧ s.stdout ≠ ""
      · rw [if_pos hs] at h
        simp only [mret, Except.ok.injEq, Prod.mk.injEq] at h
        refine ⟨remote, List.mem_cons_self _ _, ?_, s, he, hs.1, hs.2, ?_⟩
        · rw [← h.1]
        · rw [← h.1]
      · rw [if_neg hs] at h
        rcases ih _ out tr h with ⟨rm, hrm, hout, s2, hs2, hc, hne, hstd⟩
        exact ⟨rm, List.mem_cons_of_mem _ hrm, hout, s2, hs2, hc, hne, hstd⟩

/-- C10: when direct verification of a ref as a commit succeeds,
`resolveCommit` returns `resolvedRef` equal to the input ref unchanged; and
whenever the returned `resolvedRef` differs from the input ref, it is
`<remote>/<ref>` for some remote of the configured list, whose candidate
verification succeeded — i.e. the user-visible name is rewritten only via
the remote-prefix fallback. -/
theorem resolveCommit_refRewrite (env : GitEnv) (ref : String) (t0 : List Cmd) :
    (∀ r : CmdResult, env (verifyCmd ref) = .ok r → r.code = 0 → r.stdout ≠ "" →
      resolveCommit env ref t0 = .ok ((r.stdout, ref), t0 ++ [verifyCmd ref]))
    ∧ (∀ (out : String × String) (tr : List Cmd),
        resolveCommit env ref t0 = .ok (out, tr) → out.2 ≠ ref →
        ∃ rem : CmdResult, env remoteListCmd = .ok rem ∧
          ∃ remote ∈ (jsLines rem.stdout).filter fun s => s != "",
            out.2 = remote ++ "/" ++ ref ∧
            ∃ s : CmdResult, env (verifyCmd (remote ++ "/" ++ ref)) = .ok s ∧
              s.code = 0 ∧ s.stdout ≠ "" ∧ out.1 = s.stdout) := by
  constructor
  · intro r hr hc hne
    simp only [verifyCmd] at hr
    simp only [resolveCommit, mbind, runCmdM, verifyCmd]
    rw [hr]
    simp [hc, hne, mret]
  · intro out tr h hne
    rw [resolveCommit] at h
    simp only [mbind, runCmdM] at h
    cases he : env ⟨["git", "rev-parse", "--verify", ref ++ "^\x7bcommit\x7d"], none⟩ with
    | error e => rw [he] at h; simp at h
    | ok r =>
      rw [he] at h
      dsimp only at h
      by_cases hr : r.code = 0 ∧ r.stdout ≠ ""
      · rw [if_pos hr] at h
        simp only [mret, Except.ok.injEq, Prod.mk.injEq] at h
        exact absurd (by rw [← h.1]) hne
      · rw [if_neg hr] at h
        simp only [mbind, runCmdM] at h
        cases hrem : env ⟨["git", "remote"], none⟩ with
        | error e => rw [hrem] at h; simp at h
        | ok rem =>
          rw [hrem] at h
          dsimp only at h
          rcases tryRemoteCandidates_ok env ref _ _ out tr h with
            ⟨remote, hmem, hout, s, hs, hc, hsne, hstd⟩
          exact ⟨rem, hrem, remote, hmem, hout, s, hs, hc, hsne, hstd⟩

theorem resolveCommit_refRewrite_witness :
    resolveCommit
      (fun c => if c = verifyCmd "feature" then
          .ok ⟨0, "0123456789abcdef0123456789abcdef01234567", ""⟩
        else .ok ⟨1, "", ""⟩)
      "feature" []
      = .ok (("0123456789abcdef0123456789abcdef01234567", "feature"), [verifyCmd "feature"]) :=
  (resolveCommit_refRewrite
      (fun c => if c = verifyCmd "feature" then
          .ok ⟨0, "0123456789abcdef0123456789abcdef01234567", ""⟩
        else .ok ⟨1, "", ""⟩)
      "feature" []).1
    ⟨0, "0123456789abcdef0123456789abcdef01234567", ""⟩ (by decide) rfl (by decide)

/-! ### getFileConflictDetail (src/lib.ts lines 225-362) -/

/-- The five conflict kinds of `FileConflictDetail.conflict_type`. -/
inductive ConflictType where
  | content
  | rename_modify
  | modify_rename
  | delete_modify
  | modify_delete
  deriving Repr, DecidableEq

/-- Which branch performed a rename. -/
inductive RenameSide where
  | ours
  | theirs
  deriving Repr, DecidableEq

/-- `RenameInfo` of src/lib.ts. -/
structure RenameInfo where
  old_path : String
  new_path : String
  side : RenameSide
  deriving Repr, DecidableEq

/-- `FileConflictDetail` of src/lib.ts (optional fields are `undefined`
when absent). -/
structure FileConflictDetail where
  conflict_type : ConflictType
  message : Option String
  rename : Option RenameInfo
  diff : Option String
  deriving Repr, DecidableEq

/-- Drop a maximal (possibly empty) run of characters satisfying `p`. -/
def dropRunMax (p : Char → Bool) : List Char → List Char
  | [] => []
  | c :: cs => if p c then dropRunMax p cs else c :: cs

/-- Match one-or-more characters satisfying `p` (a regex `X+` whose class
is disjoint from what follows): drops the maximal nonempty run, failing on
an empty one. -/
def dropRun (p : Char → Bool) : List Char → Option (List Char)
  | [] => none
  | c :: cs => if p c then some (dropRunMax p cs) else none

/-- Match a literal word at the head of the input. -/
def stripWord (w : List Char) (l : List Char) : Option (List Char) :=
  if w.isPrefixOf l then some (l.drop w.length) else none

/-- The regex `^R\d+\s+(\S+)\s+(\S+)$` applied to one line of a
`--name-status --diff-filter=R` listing: old and new path of a rename.
(Both captures are runs of non-whitespace, so a rename of a path with
internal whitespace never matches — faithful to the source.) -/
def matchRenameLine (l : List Char) : Option (String × String) :=
  match l with
  | 'R' :: rest =>
    match dropRun Char.isDigit rest with
    | none => none
    | some r1 =>
      match dropRun isJsWS r1 with
      | none => none
      | some r2 =>
        let t1 := r2.takeWhile fun c => !(isJsWS c)
        if t1.isEmpty then none
        else
          match dropRun isJsWS (r2.drop t1.length) with
          | none => none
          | some r3 =>
            if r3 ≠ [] ∧ r3.all (fun c => !(isJsWS c)) then some (String.mk t1, String.mk r3)
            else none
  | _ => none

/-- `stdout.split('\n').map(line => line.match(/^R\d+\s+(\S+)\s+(\S+)$/))
.find(match => match && match[1] === file)` of src/lib.ts: the first rename
entry whose old name equals the candidate path. -/
def findRenameFor (file : String) (renameStdout : String) : Option (String × String) :=
  ((splitOnChar '\n' renameStdout.data).filterMap matchRenameLine).find? fun p => p.1 == file

/-- `d.stdout?.trim() || d.stderr?.trim() || undefined` of src/lib.ts. -/
def trimOrNone (r : CmdResult) : Option String :=
  if jsTrim r.stdout ≠ "" then some (jsTrim r.stdout)
  else if jsTrim r.stderr ≠ "" then some (jsTrim r.stderr)
  else none

/-- argv of the per-side rename listing
`git diff -M --name-status --diff-filter=R <mergeBase> <sideCommit>`. -/
def renameListArgs (mergeBase sideCommit : String) : List String :=
  ["git", "diff", "-M", "--name-status", "--diff-filter=R", mergeBase, sideCommit]

/-- argv of the path-scoped diff
`git diff -U3 --no-prefix -M <ours> <theirs> -- <file>`. -/
def pathDiffArgs (ours theirs file : String) : List String :=
  ["git", "diff", "-U3", "--no-prefix", "-M", ours, theirs, "--", file]

/-- argv of the rename content diff `git diff -U3 --no-prefix <a> <b>`
comparing two `commit:path` blobs. -/
def blobDiffArgs (a b : String) : List String :=
  ["git", "diff", "-U3", "--no-prefix", a, b]

/-- The delete/modify classification step of `getFileConflictDetail`
(src/lib.ts lines 331-341) applied to the trimmed diff: `delete_modify`
when the diff body contains `deleted file mode`, else `modify_delete` when
it contains `new file mode`, else `content`. -/
def detailOfDiff : Option String → FileConflictDetail
  | some ds =>
    if containsSeq "deleted file mode".data ds.data then
      ⟨.delete_modify, some "File deleted on one branch, modified on the other", none, some ds⟩
    else if containsSeq "new file mode".data ds.data then
      ⟨.modify_delete, some "File modified on one branch, deleted on the other", none, some ds⟩
    else ⟨.content, none, none, some ds⟩
  | none => ⟨.content, none, none, none⟩

/-- The no-rename tail of `getFileConflictDetail`: run the path-scoped diff
and classify its body. -/
def noRenameDetail (env : GitEnv) (file ours theirs : String) : M FileConflictDetail :=
  mbind (runCmdM env (pathDiffArgs ours theirs file) none) fun d =>
  mret (detailOfDiff (trimOrNone d))

/-- `getFileConflictDetail` of src/lib.ts: with a merge base, list renames
on each side; an ours-side rename of the candidate path (checked first)
gives `rename_modify`, else a theirs-side rename gives `modify_rename`,
else fall through to the content/delete classification of the plain diff.
Without a merge base the rename check is skipped entirely. -/
def getFileConflictDetail (env : GitEnv) (file ours theirs : String)
    (mergeBase : Option String) : M FileConflictDetail :=
  match mergeBase with
  | some mb =>
    mbind (runCmdM env (renameListArgs mb ours) none) fun ourRenames =>
    mbind (runCmdM env (renameListArgs mb theirs) none) fun theirRenames =>
    match findRenameFor file ourRenames.stdout with
    | some (oldName, newName) =>
      mbind (runCmdM env (blobDiffArgs (ours ++ ":" ++ newName) (theirs ++ ":" ++ oldName)) none) fun rd =>
      mret ⟨.rename_modify,
        some ("Your branch: renamed " ++ oldName ++ " → " ++ newName
          ++ "\nTheir branch: modified " ++ oldName),
        some ⟨oldName, newName, .ours⟩, trimOrNone rd⟩
    | none =>
      match findRenameFor file theirRenames.stdout with
      | some (oldName, newName) =>
        mbind (runCmdM env (blobDiffArgs (ours ++ ":" ++ oldName) (theirs ++ ":" ++ newName)) none) fun rd =>
        mret ⟨.modify_rename,
          some ("Your branch: modified " ++ oldName
            ++ "\nTheir branch: renamed " ++ oldName ++ " → " ++ newName),
          some ⟨oldName, newName, .theirs⟩, trimOrNone rd⟩
      | none => noRenameDetail env file ours theirs
  | none => noRenameDetail env file ours theirs

theorem getFileConflictDetail_noRename_run (env : GitEnv) (file ours theirs mb : String)
    (t0 : List Cmd) (ra rb rd : CmdResult)
    (hra : env ⟨renameListArgs mb ours, none⟩ = .ok ra)
    (hrb : env ⟨renameListArgs mb theirs, none⟩ = .ok rb)
    (hnra : findRenameFor file ra.stdout = none)
    (hnrb : findRenameFor file rb.stdout = none)
    (hrd : env ⟨pathDiffArgs ours theirs file, none⟩ = .ok rd) :
    getFileConflictDetail env file ours theirs (some mb) t0
      = .ok (detailOfDiff (trimOrNone rd),
          t0 ++ [⟨renameListArgs mb ours, none⟩, ⟨renameListArgs mb theirs, none⟩,
            ⟨pathDiffArgs ours theirs file, none⟩]) := by
  simp only [getFileConflictDetail, mbind, runCmdM]
  rw [hra]
  dsimp only
  rw [hrb]
  dsimp only
  rw [hnra]
  dsimp only
  rw [hnrb]
  dsimp only
  simp only [noRenameDetail, mbind, runCmdM]
  rw [hrd]
  simp [mret]

theorem getFileConflictDetail_ourRename_run (env : GitEnv) (file ours theirs mb : String)
    (t0 : List Cmd) (ra rb rd : CmdResult) (oldName newName : String)
    (hra : env ⟨renameListArgs mb ours, none⟩ = .ok ra)
    (hrb : env ⟨renameListArgs mb theirs, none⟩ = .ok rb)
    (hfind : findRenameFor file ra.stdout = some (oldName, newName))
    (hrd : env ⟨blobDiffArgs (ours ++ ":" ++ newName) (theirs ++ ":" ++ oldName), none⟩ = .ok rd) :
    getFileConflictDetail env file ours theirs (some mb) t0
      = .ok (⟨.rename_modify,
          some ("Your branch: renamed " ++ oldName ++ " → " ++ newName
            ++ "\nTheir branch: modified " ++ oldName),
          some ⟨oldName, newName, .ours⟩, trimOrNone rd⟩,
        t0 ++ [⟨renameListArgs mb ours, none⟩, ⟨renameListArgs mb theirs, none⟩,
          ⟨blobDiffArgs (ours ++ ":" ++ newName) (theirs ++ ":" ++ oldName), none⟩]) := by
  simp only [getFileConflictDetail, mbind, runCmdM]
  rw [hra]
  dsimp only
  rw [hrb]
  dsimp only
  rw [hfind]
  dsimp only
  simp only [mbind, runCmdM]
  rw [hrd]
  simp [mret]

/-- C4 (amended): the rename branches of `getFileConflictDetail` are
checked ours-first, not symmetrically: when the ours side lists a rename of
the candidate path, the classification is `rename_modify` with
`rename.side = ours` regardless of whether the theirs side also renamed the
path (no fall-through on a both-sides rename); only when neither side lists
such a rename does the function fall through to the content/delete check of
step 2, whose result always has `rename` absent and a conflict type among
`content`, `delete_modify`, `modify_delete`. -/
theorem getFileConflictDetail_renameFallthrough (env : GitEnv) (file ours theirs mb : String)
    (t0 : List Cmd) (ra rb : CmdResult)
    (hra : env ⟨renameListArgs mb ours, none⟩ = .ok ra)
    (hrb : env ⟨renameListArgs mb theirs, none⟩ = .ok rb) :
    (∀ oldName newName, findRenameFor file ra.stdout = some (oldName, newName) →
      ∀ rd : CmdResult,
        env ⟨blobDiffArgs (ours ++ ":" ++ newName) (theirs ++ ":" ++ oldName), none⟩ = .ok rd →
        ∃ d : FileConflictDetail, ∃ tr : List Cmd,
          getFileConflictDetail env file ours theirs (some mb) t0 = .ok (d, tr)
          ∧ d.conflict_type = .rename_modify
          ∧ d.rename = some ⟨oldName, newName, .ours⟩)
    ∧ (findRenameFor file ra.stdout = none → findRenameFor file rb.stdout = none →
      ∀ rd : CmdResult, env ⟨pathDiffArgs ours theirs file, none⟩ = .ok rd →
      ∃ d : FileConflictDetail, ∃ tr : List Cmd,
        getFileConflictDetail env file ours theirs (some mb) t0 = .ok (d, tr)
        ∧ d.rename = none
        ∧ (d.conflict_type = .content ∨ d.conflict_type = .delete_modify
            ∨ d.conflict_type = .modify_delete)) := by
  constructor
  · intro oldName newName hfind rd hrd
    exact ⟨_, _, getFileConflictDetail_ourRename_run env file ours theirs mb t0 ra rb rd
      oldName newName hra hrb hfind hrd, rfl, rfl⟩
  · intro hnra hnrb rd hrd
    refine ⟨detailOfDiff (trimOrNone rd), _,
      getFileConflictDetail_noRename_run env file ours theirs mb t0 ra rb rd
        hra hrb hnra hnrb hrd, ?_, ?_⟩
    · cases h : trimOrNone rd with
      | none => simp [detailOfDiff]
      | some ds =>
        simp only [detailOfDiff]
        by_cases h1 : containsSeq "deleted file mode".data ds.data
        · simp [h1]
        · by_cases h2 : containsSeq "new file mode".data ds.data
          · simp [h1, h2]
          · simp [h1, h2]
    · cases h : trimOrNone rd with
      | none => simp [detailOfDiff]
      | some ds =>
        simp only [detailOfDiff]
        by_cases h1 : containsSeq "deleted file mode".data ds.data
        · simp [h1]
        · by_cases h2 : containsSeq "new file mode".data ds.data
          · simp [h1, h2]
          · simp [h1, h2]

/-- C4 counterexample: a candidate path renamed on BOTH sides (old name
equal to the candidate on each side's listing) is not passed through to the
content/delete check as the claim states: the ours branch wins and the
result is classified `rename_modify` with an ours-side rename record. -/
theorem getFileConflictDetail_renameFallthrough_cex :
    getFileConflictDetail
      (fun c =>
        if c = ⟨renameListArgs "BASE" "OURS", none⟩ then .ok ⟨0, "R100\tf.txt\tg.txt", ""⟩
        else if c = ⟨renameListArgs "BASE" "THEIRS", none⟩ then .ok ⟨0, "R100\tf.txt\th.txt", ""⟩
        else .ok ⟨0, "", ""⟩)
      "f.txt" "OURS" "THEIRS" (some "BASE") []
      = .ok (⟨.rename_modify,
          some "Your branch: renamed f.txt → g.txt\nTheir branch: modified f.txt",
          some ⟨"f.txt", "g.txt", .ours⟩, none⟩,
        [⟨renameListArgs "BASE" "OURS", none⟩, ⟨renameListArgs "BASE" "THEIRS", none⟩,
         ⟨blobDiffArgs "OURS:g.txt" "THEIRS:f.txt", none⟩]) := by
  decide

theorem getFileConflictDetail_renameFallthrough_witness :
    ∃ d : FileConflictDetail, ∃ tr : List Cmd,
      getFileConflictDetail
        (fun c =>
          if c = ⟨renameListArgs "B0" "O0", none⟩ then .ok ⟨0, "", ""⟩
          else if c = ⟨renameListArgs "B0" "T0", none⟩ then .ok ⟨0, "", ""⟩
          else .ok ⟨0, "", ""⟩)
        "f.txt" "O0" "T0" (some "B0") [] = .ok (d, tr)
      ∧ d.rename = none
      ∧ (d.conflict_type = .content ∨ d.conflict_type = .delete_modify
          ∨ d.conflict_type = .modify_delete) :=
  (getFileConflictDetail_renameFallthrough
      (fun c =>
        if c = ⟨renameListArgs "B0" "O0", none⟩ then .ok ⟨0, "", ""⟩
        else if c = ⟨renameListArgs "B0" "T0", none⟩ then .ok ⟨0, "", ""⟩
        else .ok ⟨0, "", ""⟩)
      "f.txt" "O0" "T0" "B0" [] ⟨0, "", ""⟩ ⟨0, "", ""⟩ (by decide) (by decide)).2
    (by decide) (by decide) ⟨0, "", ""⟩ (by decide)

/-- The diff `git diff OURS THEIRS -- f.txt` produces when `f.txt` is
absent from OURS (deleted there) and present, modified, in THEIRS: git
reports the file as newly added, with a `new file mode` header. -/
def c2diff : String :=
  "diff --git f.txt f.txt\nnew file mode 100644\nindex 0000000..5716ca5\n--- /dev/null\n+++ f.txt\n@@ -0,0 +1 @@\n+modified content"

/-- C2 (amended): with no rename detected on either side, the side carrying
the deletion is read off the ours→theirs diff: `delete_modify` is reported
when the diff contains `deleted file mode`, which git emits when the path
exists in `oursCommit` and is gone from `theirsCommit` — i.e. deleted in
THEIRS and modified in ours; `modify_delete` is reported when the diff
instead contains `new file mode`, i.e. the path was deleted in OURS and
exists modified in theirs.  These side attributions are the reverse of the
claim's. -/
theorem getFileConflictDetail_deleteModifySides (env : GitEnv) (file ours theirs mb : String)
    (t0 : List Cmd) (ra rb rd : CmdResult)
    (hra : env ⟨renameListArgs mb ours, none⟩ = .ok ra)
    (hrb : env ⟨renameListArgs mb theirs, none⟩ = .ok rb)
    (hnra : findRenameFor file ra.stdout = none)
    (hnrb : findRenameFor file rb.stdout = none)
    (hrd : env ⟨pathDiffArgs ours theirs file, none⟩ = .ok rd) :
    (∀ ds : String, trimOrNone rd = some ds →
      containsSeq "deleted file mode".data ds.data = true →
      getFileConflictDetail env file ours theirs (some mb) t0
        = .ok (⟨.delete_modify, some "File deleted on one branch, modified on the other",
            none, some ds⟩,
          t0 ++ [⟨renameListArgs mb ours, none⟩, ⟨renameListArgs mb theirs, none⟩,
            ⟨pathDiffArgs ours theirs file, none⟩]))
    ∧ (∀ ds : String, trimOrNone rd = some ds →
      containsSeq "deleted file mode".data ds.data = false →
      containsSeq "new file mode".data ds.data = true →
      getFileConflictDetail env file ours theirs (some mb) t0
        = .ok (⟨.modify_delete, some "File modified on one branch, deleted on the other",
            none, some ds⟩,
          t0 ++ [⟨renameListArgs mb ours, none⟩, ⟨renameListArgs mb theirs, none⟩,
            ⟨pathDiffArgs ours theirs file, none⟩])) := by
  have hrun := getFileConflictDetail_noRename_run env file ours theirs mb t0 ra rb rd
    hra hrb hnra hnrb hrd
  constructor
  · intro ds hds hdel
    rw [hrun, hds]
    simp [detailOfDiff, hdel]
  · intro ds hds hdel hnew
    rw [hrun, hds]
    simp [detailOfDiff, hdel, hnew]

theorem getFileConflictDetail_deleteModifySides_witness :
    getFileConflictDetail
      (fun c =>
        if c = ⟨pathDiffArgs "OURS" "THEIRS" "f.txt", none⟩ then
          .ok ⟨0, "diff --git f.txt f.txt\ndeleted file mode 100644\n--- f.txt\n+++ /dev/null\n@@ -1 +0,0 @@\n-old content", ""⟩
        else .ok ⟨0, "", ""⟩)
      "f.txt" "OURS" "THEIRS" (some "BASE") []
      = .ok (⟨.delete_modify, some "File deleted on one branch, modified on the other",
          none, some "diff --git f.txt f.txt\ndeleted file mode 100644\n--- f.txt\n+++ /dev/null\n@@ -1 +0,0 @@\n-old content"⟩,
        [⟨renameListArgs "BASE" "OURS", none⟩, ⟨renameListArgs "BASE" "THEIRS", none⟩,
         ⟨pathDiffArgs "OURS" "THEIRS" "f.txt", none⟩]) :=
  (getFileConflictDetail_deleteModifySides
      (fun c =>
        if c = ⟨pathDiffArgs "OURS" "THEIRS" "f.txt", none⟩ then
          .ok ⟨0, "diff --git f.txt f.txt\ndeleted file mode 100644\n--- f.txt\n+++ /dev/null\n@@ -1 +0,0 @@\n-old content", ""⟩
        else .ok ⟨0, "", ""⟩)
      "f.txt" "OURS" "THEIRS" "BASE" [] ⟨0, "", ""⟩ ⟨0, "", ""⟩
        ⟨0, "diff --git f.txt f.txt\ndeleted file mode 100644\n--- f.txt\n+++ /dev/null\n@@ -1 +0,0 @@\n-old content", ""⟩
      (by decide) (by decide) (by decide) (by decide) (by decide)).1
    "diff --git f.txt f.txt\ndeleted file mode 100644\n--- f.txt\n+++ /dev/null\n@@ -1 +0,0 @@\n-old content"
    (by decide) (by decide)

/-- C2 counterexample: the concrete scenario the claim attributes to
`delete_modify` — path deleted on the OURS side, modified on the THEIRS
side, no renames — in which the ours→theirs diff therefore carries a
`new file mode` header: `getFileConflictDetail` classifies it
`modify_delete`, not `delete_modify`. -/
theorem getFileConflictDetail_deleteModifySides_cex :
    getFileConflictDetail
      (fun c =>
        if c = ⟨pathDiffArgs "OURS" "THEIRS" "f.txt", none⟩ then .ok ⟨0, c2diff, ""⟩
        else .ok ⟨0, "", ""⟩)
      "f.txt" "OURS" "THEIRS" (some "BASE") []
      = .ok (⟨.modify_delete, some "File modified on one branch, deleted on the other",
          none, some c2diff⟩,
        [⟨renameListArgs "BASE" "OURS", none⟩, ⟨renameListArgs "BASE" "THEIRS", none⟩,
         ⟨pathDiffArgs "OURS" "THEIRS" "f.txt", none⟩]) := by
  decide

/-! ### getConflictingFilesFromMergeTree (src/lib.ts lines 465-528) -/

/-- The hex digits `[a-f0-9]` of the metadata regexes. -/
def hexLower (c : Char) : Bool := c.isDigit || ('a' ≤ c && c ≤ 'f')

/-- The alternation `(base|our|their)` (the three words start with distinct
letters, so at most one can match at a position and JavaScript's
backtracking order is immaterial). -/
def stripSide (l : List Char) : Option (List Char) :=
  match stripWord "base".data l with
  | some r => some r
  | none =>
    match stripWord "our".data l with
    | some r => some r
    | none => stripWord "their".data l

/-- The trailing `\s+(.+)$` of the metadata regexes: a maximal nonempty
whitespace run, then a nonempty capture running to the end of the line.
`.` does not match line terminators, so a capture containing one fails; on
an all-whitespace tail the greedy `\s+` backtracks one character, making
the capture the final character when it is not a line terminator. -/
def wsCapture (l : List Char) : Option (List Char) :=
  match dropRun isJsWS l with
  | none => none
  | some rest =>
    if rest.isEmpty then
      match l.getLast? with
      | some c => if decide (l.length ≥ 2) && !(lineTerm c) then some [c] else none
      | none => none
    else if rest.any lineTerm then none
    else some rest

/-- The regex `^\s+(base|our|their)\s+\d+\s+[a-f0-9]+\s+(.+)$` applied to a
per-side metadata line of the merge-tree report: the captured path. -/
def matchSideMeta (l : List Char) : Option String :=
  match dropRun isJsWS l with
  | none => none
  | some r1 =>
    match stripSide r1 with
    | none => none
    | some r2 =>
      match dropRun isJsWS r2 with
      | none => none
      | some r3 =>
        match dropRun Char.isDigit r3 with
        | none => none
        | some r4 =>
          match dropRun isJsWS r4 with
          | none => none
          | some r5 =>
            match dropRun hexLower r5 with
            | none => none
            | some r6 =>
              match wsCapture r6 with
              | none => none
              | some cap => some (String.mk cap)

/-- The regex `^(merged|result)\s+\d+\s+[a-f0-9]+\s+(.+)$`: the path of a
merged/result section head. -/
def matchMergedResult (l : List Char) : Option String :=
  match
    (match stripWord "merged".data l with
     | some r => some r
     | none => stripWord "result".data l) with
  | none => none
  | some r1 =>
    match dropRun isJsWS r1 with
    | none => none
    | some r2 =>
      match dropRun Char.isDigit r2 with
      | none => none
      | some r3 =>
        match dropRun isJsWS r3 with
        | none => none
        | some r4 =>
          match dropRun hexLower r4 with
          | none => none
          | some r5 =>
            match wsCapture r5 with
            | none => none
            | some cap => some (String.mk cap)

/-- The section heads at which the conflict-marker lookahead stops:
`^(removed in|added in|changed in|merged|result)`. -/
def breakPats : List (List Char) :=
  ["removed in".data, "added in".data, "changed in".data, "merged".data, "result".data]

/-- The bounded conflict-marker lookahead: true when a line starting with
`<<<<<<< ` appears before the next section head in the window. -/
def scanMarkers : List (List Char) → Bool
  | [] => false
  | l :: rest =>
    if contentMarker.isPrefixOf l then true
    else if breakPats.any (·.isPrefixOf l) then false
    else scanMarkers rest

/-- The bounded metadata scan after a structural header: record (first
occurrence only) the path of every per-side metadata line of the window. -/
def scanMetaWindow (window : List (List Char)) (acc : List String) : List String :=
  window.foldl (fun a l =>
    match matchSideMeta l with
    | some fn => if a.contains fn then a else a ++ [fn]
    | none => a) acc

/-- The line-scanning core of `getConflictingFilesFromMergeTree`: for every
structural header, scan the next `min(i+4, len)` lines for per-side
metadata; for every `merged`/`result` head, look ahead up to
`min(i+20, len)` lines for an inline marker before the next section and, if
found, record the section's path. -/
def getConflictingFilesPure (stdout : String) : List String :=
  let lines := (jsLines stdout).map String.data
  (List.range lines.length).foldl (fun acc i =>
    let line := lines.getD i []
    let acc1 :=
      if structuralPats.any (·.isPrefixOf line) then
        scanMetaWindow ((lines.drop (i + 1)).take 3) acc
      else acc
    if "merged".data.isPrefixOf line || "result".data.isPrefixOf line then
      match matchMergedResult line with
      | some fn =>
        if scanMarkers ((lines.drop (i + 1)).take 19) then
          if acc1.contains fn then acc1 else acc1 ++ [fn]
        else acc1
      | none => acc1
    else acc1) []

/-- `getConflictingFilesFromMergeTree` of src/lib.ts: run the fallback
merge-tree and parse its report for conflicting paths. -/
def getConflictingFilesFromMergeTree (env : GitEnv)
    (mergeBase ours theirs emptyTree : String) : M (List String) :=
  mbind (runCmdM env (mergeTreeArgs mergeBase ours theirs emptyTree) none) fun r =>
  mret (getConflictingFilesPure r.stdout)

/-! ### The detection pipeline of main (src/main.ts lines 174-338) -/

/-- `ConflictCheckResult` of src/lib.ts; the `files` record is an ordered
association list. -/
structure ConflictCheckResult where
  current_ref : String
  other_ref : String
  ours_commit : String
  theirs_commit : String
  merge_base : Option String
  conflicts : Bool
  conflicted_files : List String
  files : List (String × FileConflictDetail)
  deriving Repr, DecidableEq

/-- `mergeBase || null` (and `mergeBase || undefined`) of main.ts: the empty
string becomes the absent value. -/
def optOfBase (mergeBase : String) : Option String :=
  if mergeBase = "" then none else some mergeBase

/-- The `--diff` loop of main.ts: one `FileConflictDetail` per conflicting
file, in order. -/
def collectDetails (env : GitEnv) (ours theirs : String) (mb : Option String) :
    List String → M (List (String × FileConflictDetail))
  | [] => mret []
  | f :: fs =>
    mbind (getFileConflictDetail env f ours theirs mb) fun d =>
    mbind (collectDetails env ours theirs mb fs) fun rest =>
    mret ((f, d) :: rest)

/-- What a JavaScript Promise object becomes when `Deno.Command` coerces
each argv element with `String(...)`: main.ts line 175 reads
`const emptyTree = getEmptyTreeHash();` with no `await`, so `emptyTree` is
a pending Promise, not the hash string.  `await revToTree(mergeBase,
emptyTree)` still yields the hash (an async function returning a Promise is
flattened by the caller's await), but `mergeBase || emptyTree` at
main.ts lines 263 and 271 passes the Promise object itself into the
`git merge-tree` argv, where it is stringified. -/
def promiseArgString : String := "[object Promise]"

/-- The conflicts-found tail of the primary strategy (main.ts lines
207-255): fill the result, optionally collect per-file details, exit 1. -/
def primaryReport (env : GitEnv) (res0 : ConflictCheckResult) (files : List String)
    (ours theirs mergeBase : String) (printDiffs : Bool) : M (ConflictCheckResult × Int) :=
  mbind (if printDiffs then collectDetails env ours theirs (optOfBase mergeBase) files
    else mret []) fun ds =>
  mret ({res0 with conflicts := true, conflicted_files := files, files := ds}, 1)

/-- The fallback strategy of main.ts lines 261-323.  The first merge-tree
argument is `mergeBase || emptyTree`: when `mergeBase` is empty this is the
unawaited Promise of main.ts line 175, which reaches the git argv as
`promiseArgString` (see there); the fourth argument is the same Promise,
dead inside `checkConflictsWithMergeTree` because its first argument is
never the empty string here. -/
def fallbackCheck (env : GitEnv) (res0 : ConflictCheckResult)
    (ours theirs mergeBase : String) (printDiffs : Bool) : M (ConflictCheckResult × Int) :=
  mbind (checkConflictsWithMergeTree env
      (if mergeBase = "" then promiseArgString else mergeBase) ours theirs promiseArgString)
    fun hasConflicts =>
  if hasConflicts then
    mbind (getConflictingFilesFromMergeTree env
        (if mergeBase = "" then promiseArgString else mergeBase) ours theirs promiseArgString)
      fun cfiles =>
    mbind (if printDiffs then collectDetails env ours theirs (optOfBase mergeBase) cfiles
      else mret []) fun ds =>
    mret ({res0 with conflicts := true, conflicted_files := cfiles, files := ds}, 1)
  else mret (res0, 0)

/-- The detection pipeline of `main` (src/main.ts lines 174-338), after
ref/commit resolution: compute the (unawaited) empty-tree hash and the
merge base, resolve the three trees (`await revToTree` flattens the
Promise, so the empty-tree value is used here), run the primary read-tree
strategy on a scratch index created at `tmpPath`, and either report its
unmerged files (exit 1) or fall through to the merge-tree fallback.  The
`try/finally` around the primary strategy releases the scratch index in
both branches; the release touches only the file system (modelled by
`tempIndexCleanup`), never a git command, so it does not appear in this
command-trace model.  Console rendering and the `--json` flag do not
change the result object or the exit code and are omitted. -/
def mainPipeline (env : GitEnv) (currentRef otherRef oursCommit theirsCommit : String)
    (printDiffs : Bool) (tmpPath : String) : M (ConflictCheckResult × Int) :=
  mbind (getEmptyTreeHash env) fun emptyTreeVal =>
  mbind (runCmdM env ["git", "merge-base", oursCommit, theirsCommit] none) fun mbRes =>
  let mergeBase := if mbRes.code = 0 ∧ mbRes.stdout ≠ "" then mbRes.stdout else ""
  mbind (revToTree env mergeBase emptyTreeVal) fun baseTree =>
  mbind (revToTree env oursCommit emptyTreeVal) fun oursTree =>
  mbind (revToTree env theirsCommit emptyTreeVal) fun theirsTree =>
  let res0 : ConflictCheckResult :=
    { current_ref := currentRef, other_ref := otherRef, ours_commit := oursCommit,
      theirs_commit := theirsCommit, merge_base := optOfBase mergeBase,
      conflicts := false, conflicted_files := [], files := [] }
  mbind (checkConflictsWithReadTree env baseTree oursTree theirsTree (some tmpPath))
    fun unmergedFiles =>
  if unmergedFiles.isEmpty then
    fallbackCheck env res0 oursCommit theirsCommit mergeBase printDiffs
  else
    primaryReport env res0 unmergedFiles oursCommit theirsCommit mergeBase printDiffs

/-! ### The no-common-ancestor scenario (C3) -/

/-- Oracle for a repository with two orphan histories whose trees merge
cleanly under read-tree: `merge-base` fails (exit 1, no output), the trees
resolve, the scratch-index merge leaves no unmerged entries — and, had the
fallback been consulted with the real empty-tree id, its report would show
a conflict (inline markers), while the argv the code actually sends —
`[object Promise]`, from the unawaited `getEmptyTreeHash()` of main.ts line
175 — makes git fail with empty output.  `hash-object` yields no output so
the well-known hard-coded empty-tree hash is used. -/
def env3 : GitEnv := fun c =>
  if c = ⟨["git", "merge-base", "O3", "T3"], none⟩ then .ok ⟨1, "", ""⟩
  else if c = ⟨["git", "rev-parse", "O3" ++ "^\x7btree\x7d"], none⟩ then .ok ⟨0, "treeO", ""⟩
  else if c = ⟨["git", "rev-parse", "T3" ++ "^\x7btree\x7d"], none⟩ then .ok ⟨0, "treeT", ""⟩
  else if c = ⟨["git", "merge-tree", promiseArgString, "O3", "T3"], none⟩ then
    .ok ⟨128, "", "fatal: not a valid object name [object Promise]"⟩
  else if c = ⟨["git", "merge-tree", "4b825dc642cb6eb9a060e54bf8d69288fbee4904", "O3", "T3"], none⟩ then
    .ok ⟨0, "added in both\n  our    100644 2222222222222222222222222222222222222222 f.txt\n<<<<<<< .our\nours line\n=======\ntheirs line\n>>>>>>> .their", ""⟩
  else .ok ⟨0, "", ""⟩

/-- The command trace of `mainPipeline` under `env3`. -/
def c3trace : List Cmd :=
  [⟨["git", "hash-object", "-t", "tree", "/dev/null"], none⟩,
   ⟨["git", "merge-base", "O3", "T3"], none⟩,
   ⟨["git", "rev-parse", "O3^\x7btree\x7d"], none⟩,
   ⟨["git", "rev-parse", "T3^\x7btree\x7d"], none⟩,
   ⟨["git", "read-tree", "-m", "--", "4b825dc642cb6eb9a060e54bf8d69288fbee4904", "treeO", "treeT"],
     some "/tmp/ix3"⟩,
   ⟨["git", "ls-files", "-u", "--stage"], some "/tmp/ix3"⟩,
   ⟨["git", "merge-tree", "[object Promise]", "O3", "T3"], none⟩]

/-- C3, evaluated at the failing input: comparing two histories with no
common ancestor, the pipeline does set `merge_base` to `null` and does not
raise, and the primary read-tree strategy does use the empty-tree id as
synthetic base — but the claim's "completes conflict detection using the
empty-tree id" fails for the fallback: because main.ts line 175 lacks
`await`, the fallback merge-tree is invoked with base argument
`[object Promise]` (the stringified pending Promise), the empty-tree-based
invocation never appears in the trace, and the run reports no conflicts
even though consulting merge-tree with the real empty-tree id (last
conjunct) flags them. -/
theorem mainPipeline_noAncestor_promiseBase :
    mainPipeline env3 "cur" "oth" "O3" "T3" false "/tmp/ix3" []
      = .ok ((⟨"cur", "oth", "O3", "T3", none, false, [], []⟩, 0), c3trace)
    ∧ (⟨["git", "merge-tree", "[object Promise]", "O3", "T3"], none⟩ : Cmd) ∈ c3trace
    ∧ (⟨["git", "merge-tree", "4b825dc642cb6eb9a060e54bf8d69288fbee4904", "O3", "T3"], none⟩ : Cmd)
        ∉ c3trace
    ∧ checkConflictsWithMergeTree env3 "4b825dc642cb6eb9a060e54bf8d69288fbee4904" "O3" "T3"
        "4b825dc642cb6eb9a060e54bf8d69288fbee4904" []
      = .ok (true,
          [⟨["git", "merge-tree", "4b825dc642cb6eb9a060e54bf8d69288fbee4904", "O3", "T3"], none⟩]) := by
  refine ⟨by decide, by decide, by decide, by decide⟩

/-! ### Short-circuit of the fallback strategy (C7)

`RunEmits x t P` says a run of `x` from trace `t` only adds commands
satisfying `P`; instantiated with "the subcommand is not merge-tree" it
expresses that a computation never consults the fallback tool. -/

def RunEmits {α : Type} (x : M α) (t : List Cmd) (P : Cmd → Prop) : Prop :=
  ∀ c ∈ traceOut (x t), c ∈ t ∨ P c

/-- The command is not a `git merge-tree` invocation (the subcommand is
always argv position 1 in this code base). -/
def noMT (c : Cmd) : Prop := c.argv.get? 1 ≠ some "merge-tree"

theorem mbind_error {α β : Type} {X : M α} {F : α → M β} {t : List Cmd}
    {e : MErr × List Cmd} (h : X t = .error e) : mbind X F t = .error e := by
  simp only [mbind, h]

theorem mbind_ok {α β : Type} {X : M α} {F : α → M β} {t t2 : List Cmd} {a : α}
    (h : X t = .ok (a, t2)) : mbind X F t = F a t2 := by
  simp only [mbind, h]

theorem runEmits_mret {α : Type} (a : α) (t : List Cmd) (P : Cmd → Prop) :
    RunEmits (mret a) t P := fun _ hc => Or.inl hc

theorem runEmits_mthrow {α : Type} (e : MErr) (t : List Cmd) (P : Cmd → Prop) :
    RunEmits (mthrow (α := α) e) t P := fun _ hc => Or.inl hc

theorem runEmits_runCmdM (env : GitEnv) (argv : List String) (idx : Option String)
    (t : List Cmd) (P : Cmd → Prop) (h : P ⟨argv, idx⟩) :
    RunEmits (runCmdM env argv idx) t P := by
  intro c hc
  simp only [runCmdM] at hc
  cases he : env ⟨argv, idx⟩ with
  | error e =>
    rw [he] at hc
    simp only [traceOut, List.mem_append, List.mem_singleton] at hc
    rcases hc with hc | rfl
    · exact Or.inl hc
    · exact Or.inr h
  | ok r =>
    rw [he] at hc
    simp only [traceOut, List.mem_append, List.mem_singleton] at hc
    rcases hc with hc | rfl
    · exact Or.inl hc
    · exact Or.inr h

theorem runEmits_mbind {α β : Type} {X : M α} {F : α → M β} {t : List Cmd} {P : Cmd → Prop}
    (hX : RunEmits X t P)
    (hF : ∀ a t2, X t = .ok (a, t2) → RunEmits (F a) t2 P) :
    RunEmits (mbind X F) t P := by
  intro c hc
  cases hx : X t with
  | error e =>
    rw [mbind_error hx] at hc
    exact hX c (by rw [hx]; exact hc)
  | ok p =>
    obtain ⟨a, t2⟩ := p
    rw [mbind_ok hx] at hc
    rcases hF a t2 hx c hc with h | h
    · exact hX c (by rw [hx]; exact h)
    · exact Or.inr h

theorem runEmits_mtry {α : Type} {X : M α} {H : MErr → M α} {t : List Cmd} {P : Cmd → Prop}
    (hX : RunEmits X t P)
    (hH : ∀ e t2, X t = .error (e, t2) → RunEmits (H e) t2 P) :
    RunEmits (mtry X H) t P := by
  intro c hc
  cases hx : X t with
  | error p =>
    obtain ⟨e, t2⟩ := p
    rw [show mtry X H t = H e t2 from by simp only [mtry, hx]] at hc
    rcases hH e t2 hx c hc with h | h
    · exact hX c (by rw [hx]; exact h)
    · exact Or.inr h
  | ok r =>
    rw [show mtry X H t = .ok r from by simp only [mtry, hx]] at hc
    exact hX c (by rw [hx]; exact hc)

theorem runEmits_runGitWithIndex (env : GitEnv) (path : Option String) (args : List String)
    (t : List Cmd) (P : Cmd → Prop) (h : ∀ p, P ⟨"git" :: args, some p⟩) :
    RunEmits (runGitWithIndex env path args) t P := by
  cases path with
  | none => exact runEmits_mthrow _ t P
  | some p => exact runEmits_runCmdM env _ _ t P (h p)

theorem emits_getEmptyTreeHash (env : GitEnv) (t : List Cmd) :
    RunEmits (getEmptyTreeHash env) t noMT := by
  rw [getEmptyTreeHash]
  refine runEmits_mbind (runEmits_runCmdM env _ none t noMT (by simp [noMT])) ?_
  intro r t2 _
  by_cases h : r.code = 0 ∧ r.stdout ≠ ""
  · rw [if_pos h]; exact runEmits_mret _ _ _
  · rw [if_neg h]; exact runEmits_mret _ _ _

theorem emits_revToTree (env : GitEnv) (rev emptyTree : String) (t : List Cmd) :
    RunEmits (revToTree env rev emptyTree) t noMT := by
  rw [revToTree]
  by_cases h0 : rev = ""
  · rw [if_pos h0]; exact runEmits_mret _ _ _
  · rw [if_neg h0]
    refine runEmits_mbind (runEmits_runCmdM env _ none t noMT (by simp [noMT])) ?_
    intro r t2 _
    by_cases h : r.code = 0 ∧ r.stdout ≠ ""
    · rw [if_pos h]; exact runEmits_mret _ _ _
    · rw [if_neg h]; exact runEmits_mret _ _ _

theorem emits_checkConflictsWithReadTree (env : GitEnv) (b o th : String)
    (path : Option String) (t : List Cmd) :
    RunEmits (checkConflictsWithReadTree env b o th path) t noMT := by
  rw [checkConflictsWithReadTree]
  refine runEmits_mbind (runEmits_mtry
    (runEmits_runGitWithIndex env path _ t noMT (fun p => by simp [noMT])) ?_) ?_
  · intro e t2 _
    exact runEmits_mret _ _ _
  · intro a t2 _
    refine runEmits_mbind
      (runEmits_runGitWithIndex env path _ t2 noMT (fun p => by simp [noMT])) ?_
    intro ls t3 _
    exact runEmits_mret _ _ _

theorem emits_noRenameDetail (env : GitEnv) (file ours theirs : String) (t : List Cmd) :
    RunEmits (noRenameDetail env file ours theirs) t noMT := by
  rw [noRenameDetail]
  refine runEmits_mbind (runEmits_runCmdM env _ none t noMT (by simp [noMT, pathDiffArgs])) ?_
  intro d t2 _
  exact runEmits_mret _ _ _

theorem emits_getFileConflictDetail (env : GitEnv) (file ours theirs : String)
    (mb : Option String) (t : List Cmd) :
    RunEmits (getFileConflictDetail env file ours theirs mb) t noMT := by
  cases mb with
  | none => exact emits_noRenameDetail env file ours theirs t
  | some m =>
    rw [getFileConflictDetail]
    refine runEmits_mbind
      (runEmits_runCmdM env _ none t noMT (by simp [noMT, renameListArgs])) ?_
    intro ra t2 _
    refine runEmits_mbind
      (runEmits_runCmdM env _ none t2 noMT (by simp [noMT, renameListArgs])) ?_
    intro rb t3 _
    cases hfa : findRenameFor file ra.stdout with
    | some p =>
      obtain ⟨oldName, newName⟩ := p
      refine runEmits_mbind
        (runEmits_runCmdM env _ none t3 noMT (by simp [noMT, blobDiffArgs])) ?_
      intro rd t4 _
      exact runEmits_mret _ _ _
    | none =>
      cases hfb : findRenameFor file rb.stdout with
      | some p =>
        obtain ⟨oldName, newName⟩ := p
        refine runEmits_mbind
          (runEmits_runCmdM env _ none t3 noMT (by simp [noMT, blobDiffArgs])) ?_
        intro rd t4 _
        exact runEmits_mret _ _ _
      | none => exact emits_noRenameDetail env file ours theirs t3

theorem emits_collectDetails (env : GitEnv) (ours theirs : String) (mb : Option String) :
    ∀ (files : List String) (t : List Cmd),
      RunEmits (collectDetails env ours theirs mb files) t noMT := by
  intro files
  induction files with
  | nil => intro t; rw [collectDetails]; exact runEmits_mret _ _ _
  | cons f fs ih =>
    intro t
    rw [collectDetails]
    refine runEmits_mbind (emits_getFileConflictDetail env f ours theirs mb t) ?_
    intro d t2 _
    refine runEmits_mbind (ih t2) ?_
    intro rest t3 _
    exact runEmits_mret _ _ _

theorem emits_primaryReport (env : GitEnv) (res0 : ConflictCheckResult) (files : List String)
    (ours theirs mergeBase : String) (printDiffs : Bool) (t : List Cmd) :
    RunEmits (primaryReport env res0 files ours theirs mergeBase printDiffs) t noMT := by
  rw [primaryReport]
  refine runEmits_mbind ?_ ?_
  · cases printDiffs with
    | true => rw [if_pos rfl]; exact emits_collectDetails env ours theirs _ files t
    | false => rw [if_neg (by simp)]; exact runEmits_mret _ _ _
  · intro ds t2 _
    exact runEmits_mret _ _ _

theorem checkConflictsWithReadTree_out (env : GitEnv) (b o th p : String) (t : List Cmd)
    (files : List String) (tr : List Cmd)
    (h : checkConflictsWithReadTree env b o th (some p) t = .ok (files, tr)) :
    ∃ r : CmdResult, env (lsFilesCmd p) = .ok r ∧ files = parseUnmergedFiles r.stdout := by
  simp only [checkConflictsWithReadTree, mbind, mtry, runGitWithIndex, runCmdM, mret] at h
  cases hrt : env ⟨"git" :: ["read-tree", "-m", "--", b, o, th], some p⟩ with
  | error e =>
    rw [hrt] at h
    dsimp only at h
    cases hls : env ⟨"git" :: ["ls-files", "-u", "--stage"], some p⟩ with
    | error e2 => rw [hls] at h; simp at h
    | ok r =>
      rw [hls] at h
      dsimp only at h
      simp only [Except.ok.injEq, Prod.mk.injEq] at h
      exact ⟨r, hls, h.1.symm⟩
  | ok r0 =>
    rw [hrt] at h
    dsimp only at h
    cases hls : env ⟨"git" :: ["ls-files", "-u", "--stage"], some p⟩ with
    | error e2 => rw [hls] at h; simp at h
    | ok r =>
      rw [hls] at h
      dsimp only at h
      simp only [Except.ok.injEq, Prod.mk.injEq] at h
      exact ⟨r, hls, h.1.symm⟩

/-- C7: the fallback merge-tree strategy is never consulted once the
primary read-tree strategy reports at least one unmerged path: whenever the
`ls-files -u --stage` listing of the scratch index parses to a non-empty
path list, no command of the whole pipeline run — returning or throwing —
is a `git merge-tree` invocation. -/
theorem mainPipeline_shortCircuit (env : GitEnv) (cur oth ours theirs : String)
    (pd : Bool) (tmp : String)
    (hprimary : ∀ r : CmdResult, env (lsFilesCmd tmp) = .ok r →
      parseUnmergedFiles r.stdout ≠ []) :
    ∀ c ∈ traceOut (mainPipeline env cur oth ours theirs pd tmp []), noMT c := by
  have hrun : RunEmits (mainPipeline env cur oth ours theirs pd tmp) [] noMT := by
    rw [mainPipeline]
    refine runEmits_mbind (emits_getEmptyTreeHash env []) ?_
    intro etv t1 _
    refine runEmits_mbind (runEmits_runCmdM env _ none t1 noMT (by simp [noMT])) ?_
    intro mbRes t2 _
    dsimp only
    refine runEmits_mbind (emits_revToTree env _ _ t2) ?_
    intro baseTree t3 _
    refine runEmits_mbind (emits_revToTree env _ _ t3) ?_
    intro oursTree t4 _
    refine runEmits_mbind (emits_revToTree env _ _ t4) ?_
    intro theirsTree t5 _
    dsimp only
    refine runEmits_mbind (emits_checkConflictsWithReadTree env _ _ _ _ t5) ?_
    intro unmergedFiles t6 hx
    rcases checkConflictsWithReadTree_out env _ _ _ tmp t5 unmergedFiles t6 hx with
      ⟨r, hr, hfiles⟩
    have hne : unmergedFiles ≠ [] := by rw [hfiles]; exact hprimary r hr
    rw [if_neg (by simpa [List.isEmpty_iff] using hne)]
    exact emits_primaryReport env _ _ _ _ _ _ t6
  intro c hc
  rcases hrun c hc with h | h
  · cases h
  · exact h

theorem mainPipeline_shortCircuit_witness :
    (⟨["git", "merge-tree", promiseArgString, "O7", "T7"], none⟩ : Cmd)
      ∉ traceOut (mainPipeline
        (fun c => if c = lsFilesCmd "/tmp/ix7" then .ok ⟨0, "100644 aaa 2\tf.txt", ""⟩
          else .ok ⟨0, "", ""⟩)
        "cur" "oth" "O7" "T7" false "/tmp/ix7" []) := fun hmem =>
  mainPipeline_shortCircuit
    (fun c => if c = lsFilesCmd "/tmp/ix7" then .ok ⟨0, "100644 aaa 2\tf.txt", ""⟩
      else .ok ⟨0, "", ""⟩)
    "cur" "oth" "O7" "T7" false "/tmp/ix7"
    (fun r hr => by
      rw [show (fun c => if c = lsFilesCmd "/tmp/ix7" then
            Except.ok (⟨0, "100644 aaa 2\tf.txt", ""⟩ : CmdResult)
          else .ok ⟨0, "", ""⟩) (lsFilesCmd "/tmp/ix7")
          = Except.ok (⟨0, "100644 aaa 2\tf.txt", ""⟩ : CmdResult) from rfl] at hr
      injection hr with h
      subst h
      decide)
    _ hmem rfl

end GitCheckConflicts
